import Mathlib

/-!
Verification development for the alaska-crawler repository.

The Python sources (`alaska_scraper.py`, `alaska_header_scraper.py`) are
shallowly embedded below.  Pure text processing (regular-expression driven
extraction over the flattened page text) is embedded through a small
backtracking pattern matcher whose pattern language covers exactly the
constructs used by the repository's patterns (case-insensitive literals,
alternation of literals, single-character classes with greedy or lazy
counted repetition, and capture groups).  Documents are embedded as the
projections the extractors actually consume (flattened text, list blocks
with their class strings, table cell texts, link text/href pairs).
-/

namespace Alaska

/-! ## Character helpers (Python `str` semantics on the relevant alphabet) -/

/-- ASCII decimal digit, modelling `\d` / `str.isdigit` on the inputs of
interest (ASCII digits). -/
def isDigitChar (c : Char) : Bool :=
  decide (48 ≤ c.toNat) && decide (c.toNat ≤ 57)

/-- Python `\s` / `str.strip` whitespace set (ASCII part). -/
def isSpaceChar (c : Char) : Bool :=
  c == ' ' || c == '\t' || c == '\n' || c == '\r' || c == '\x0b' || c == '\x0c'

/-- Uppercase/lowercase pairs for the Vietnamese letters that occur in the
repository's patterns and data (models Unicode simple case mapping). -/
def viCasePairs : List (Char × Char) :=
  [('Á','á'),('À','à'),('Ả','ả'),('Ã','ã'),('Ạ','ạ'),('Ă','ă'),('Ắ','ắ'),
   ('Ằ','ằ'),('Ẳ','ẳ'),('Ẵ','ẵ'),('Ặ','ặ'),('Â','â'),('Ấ','ấ'),('Ầ','ầ'),
   ('Ẩ','ẩ'),('Ẫ','ẫ'),('Ậ','ậ'),('Đ','đ'),('É','é'),('È','è'),('Ẻ','ẻ'),
   ('Ẽ','ẽ'),('Ẹ','ẹ'),('Ê','ê'),('Ế','ế'),('Ề','ề'),('Ể','ể'),('Ễ','ễ'),
   ('Ệ','ệ'),('Í','í'),('Ì','ì'),('Ỉ','ỉ'),('Ĩ','ĩ'),('Ị','ị'),('Ó','ó'),
   ('Ò','ò'),('Ỏ','ỏ'),('Õ','õ'),('Ọ','ọ'),('Ô','ô'),('Ố','ố'),('Ồ','ồ'),
   ('Ổ','ổ'),('Ỗ','ỗ'),('Ộ','ộ'),('Ơ','ơ'),('Ớ','ớ'),('Ờ','ờ'),('Ở','ở'),
   ('Ỡ','ỡ'),('Ợ','ợ'),('Ú','ú'),('Ù','ù'),('Ủ','ủ'),('Ũ','ũ'),('Ụ','ụ'),
   ('Ư','ư'),('Ứ','ứ'),('Ừ','ừ'),('Ử','ử'),('Ữ','ữ'),('Ự','ự'),('Ý','ý'),
   ('Ỳ','ỳ'),('Ỷ','ỷ'),('Ỹ','ỹ'),('Ỵ','ỵ')]

/-- Lowercase a character (ASCII plus the Vietnamese table). -/
def lowerChar (c : Char) : Char :=
  if decide (65 ≤ c.toNat) && decide (c.toNat ≤ 90) then
    Char.ofNat (c.toNat + 32)
  else
    match viCasePairs.find? (fun p => p.1 == c) with
    | some p => p.2
    | none => c

/-- Uppercase a character (ASCII plus the Vietnamese table); models
Python `str.upper` on the alphabet of interest. -/
def upperChar (c : Char) : Char :=
  if decide (97 ≤ c.toNat) && decide (c.toNat ≤ 122) then
    Char.ofNat (c.toNat - 32)
  else
    match viCasePairs.find? (fun p => p.2 == c) with
    | some p => p.1
    | none => c

/-- Python `str.upper` over a character list. -/
def pyUpperL (l : List Char) : List Char := l.map upperChar

/-- Python word character `\w` restricted to the alphabet of interest:
ASCII alphanumerics, underscore, and the Vietnamese letters. -/
def isWordChar (c : Char) : Bool :=
  isDigitChar c
  || (decide (65 ≤ c.toNat) && decide (c.toNat ≤ 90))
  || (decide (97 ≤ c.toNat) && decide (c.toNat ≤ 122))
  || c == '_'
  || viCasePairs.any (fun p => p.1 == c || p.2 == c)

/-- Python `str.strip` (default whitespace strip on both ends). -/
def pyStrip (l : List Char) : List Char :=
  (((l.dropWhile isSpaceChar).reverse).dropWhile isSpaceChar).reverse

/-- Substring test, modelling Python `needle in hay` on strings. -/
def matchPre : List Char → List Char → Bool
  | [], _ => true
  | _ :: _, [] => false
  | c :: t, d :: r => c == d && matchPre t r

/-- `containsSub hay needle` is Python `needle in hay`. -/
def containsSub : List Char → List Char → Bool
  | hay, nd =>
    match hay with
    | [] => nd.isEmpty
    | _ :: t => matchPre nd hay || containsSub t nd

/-- Substring test on `String`s (Python `in`). -/
def containsSubStr (hay nd : String) : Bool := containsSub hay.data nd.data

/-- Python `s.startswith(pre)`. -/
def strStartsWith (s pre : String) : Bool := matchPre pre.data s.data

/-! ## Pattern language

The repository's regexes use only: literals, alternation of literals,
single-character classes under `?`/`*`/`+`/`{m,}`/`{m,n}` quantifiers
(greedy or lazy), and capture groups around runs of these.  The embedding
flattens a pattern to a list of atoms with explicit group open/close
markers. -/

/-- A character class: union of `\d`, `\s`, `\w` and explicit characters,
optionally negated (used for `.`, `[^\n]`, `[^\s]`). -/
structure CCls where
  incD : Bool
  incS : Bool
  incW : Bool
  extra : List Char
  negated : Bool

def clsD : CCls := ⟨true, false, false, [], false⟩
def clsS : CCls := ⟨false, true, false, [], false⟩
def clsW : CCls := ⟨false, false, true, [], false⟩
/-- `.` (any character except newline, no DOTALL flag anywhere in the repo). -/
def clsDot : CCls := ⟨false, false, false, ['\n'], true⟩
/-- `[^\n]`. -/
def clsNotNL : CCls := clsDot
/-- `[^\s]`. -/
def clsNotSpace : CCls := ⟨false, true, false, [], true⟩

def ccMatch0 (cc : CCls) (c : Char) : Bool :=
  let b := (cc.incD && isDigitChar c) || (cc.incS && isSpaceChar c)
    || (cc.incW && isWordChar c) || cc.extra.contains c
  if cc.negated then !b else b

/-- Class membership under an optional IGNORECASE flag.  Case folding is
applied only to positive classes; the negated classes used by the repo
(`.`, `[^\n]`, `[^\s]`) are case-closed, so this matches Python. -/
def ccMatch (ci : Bool) (cc : CCls) (c : Char) : Bool :=
  if cc.negated then ccMatch0 cc c
  else ccMatch0 cc c || (ci && (ccMatch0 cc (lowerChar c) || ccMatch0 cc (upperChar c)))

/-- Case-insensitive-capable literal prefix test. -/
def matchPreCI (ci : Bool) : List Char → List Char → Bool
  | [], _ => true
  | _ :: _, [] => false
  | c :: t, d :: r =>
    (c == d || (ci && lowerChar c == lowerChar d)) && matchPreCI ci t r

/-- Pattern atoms.  `clsTry` is an internal state used while backtracking
over the repetition count of a class. -/
inductive RAtom where
  | lit (t : List Char)
  | alts (ts : List (List Char))
  | cls (cc : CCls) (lo : Nat) (hi : Option Nat) (lazy : Bool)
  | clsTry (cc : CCls) (counts : List Nat)
  | gopen
  | gclose

/-- Longest run of class characters at the head of the input, capped. -/
def countRun (ci : Bool) (cc : CCls) : List Char → Nat → Nat
  | _, 0 => 0
  | [], _ + 1 => 0
  | c :: rest, lim + 1 =>
    if ccMatch ci cc c then countRun ci cc rest lim + 1 else 0

/-- Repetition counts in greedy order: `m, m-1, ..., lo`. -/
def countsDesc (m lo : Nat) : List Nat := (List.range' lo (m + 1 - lo)).reverse

/-- Repetition counts in lazy order: `lo, lo+1, ..., m`. -/
def countsAsc (lo m : Nat) : List Nat := List.range' lo (m + 1 - lo)

/-- Backtracking matcher.  Attempts to match the atom sequence at the head
of `inp` (which is the original subject suffixed at absolute position
`pos`); returns the end position and the recorded capture spans of the
highest-priority match, mirroring Python `re` (leftmost, greedy/lazy per
quantifier, alternation left to right).  `fuel` bounds the call depth and
is chosen large enough by the callers. -/
def matchSeq (ci : Bool) :
    Nat → List RAtom → List Char → Nat → Option Nat → List (Nat × Nat) →
    Option (Nat × List (Nat × Nat))
  | _, [], _, pos, _, spans => some (pos, spans)
  | 0, _ :: _, _, _, _, _ => none
  | fuel + 1, a :: rest, inp, pos, op, spans =>
    match a with
    | .lit t =>
      if matchPreCI ci t inp then
        matchSeq ci fuel rest (inp.drop t.length) (pos + t.length) op spans
      else none
    | .alts ts =>
      match ts with
      | [] => none
      | t :: ts2 =>
        if matchPreCI ci t inp then
          match matchSeq ci fuel rest (inp.drop t.length) (pos + t.length) op spans with
          | some r => some r
          | none => matchSeq ci fuel (.alts ts2 :: rest) inp pos op spans
        else matchSeq ci fuel (.alts ts2 :: rest) inp pos op spans
    | .cls cc lo hi lz =>
      let lim := match hi with | some h => h | none => inp.length
      let run := countRun ci cc inp lim
      if run < lo then none
      else
        matchSeq ci fuel
          (.clsTry cc (if lz then countsAsc lo run else countsDesc run lo) :: rest)
          inp pos op spans
    | .clsTry cc counts =>
      match counts with
      | [] => none
      | cnt :: cs =>
        match matchSeq ci fuel rest (inp.drop cnt) (pos + cnt) op spans with
        | some r => some r
        | none => matchSeq ci fuel (.clsTry cc cs :: rest) inp pos op spans
    | .gopen => matchSeq ci fuel rest inp pos (some pos) spans
    | .gclose =>
      match op with
      | some st => matchSeq ci fuel rest inp pos none (spans ++ [(st, pos)])
      | none => none

/-- Fuel sufficient for `matchSeq` on these patterns: along any call path
each atom consumes at most `input length + 2` frames. -/
def matchFuel (atoms : List RAtom) (inp : List Char) : Nat :=
  (atoms.length + 2) * (inp.length + 3)

/-- Scan of all non-overlapping matches (Python `re.findall`): try each
start position left to right; after a match resume at its end (advancing
at least one character). -/
def findAllGo (ci : Bool) (atoms : List RAtom) (s : List Char) :
    Nat → Nat → List (List (Nat × Nat))
  | 0, _ => []
  | fuel + 1, pos =>
    if pos > s.length then []
    else
      match matchSeq ci (matchFuel atoms (s.drop pos)) atoms (s.drop pos) pos none [] with
      | some (endPos, spans) =>
        spans :: findAllGo ci atoms s fuel (if pos < endPos then endPos else pos + 1)
      | none => findAllGo ci atoms s fuel (pos + 1)

/-- `re.findall`: the list of capture-group texts of each match. -/
def findAll (ci : Bool) (atoms : List RAtom) (s : List Char) :
    List (List (List Char)) :=
  (findAllGo ci atoms s (s.length + 1) 0).map
    (fun spans => spans.map (fun ab => (s.take ab.2).drop ab.1))

/-- `re.findall` for a single-group pattern (Python returns the group). -/
def findAll1 (ci : Bool) (atoms : List RAtom) (s : List Char) : List (List Char) :=
  (findAll ci atoms s).filterMap (fun gs => gs.head?)

/-- `re.findall` for a two-group pattern (Python returns pairs). -/
def findAll2 (ci : Bool) (atoms : List RAtom) (s : List Char) :
    List (List Char × List Char) :=
  (findAll ci atoms s).filterMap
    (fun gs => match gs with | [a, b] => some (a, b) | _ => none)

/-! ## Ordered string map (Python `dict` with string keys) -/

/-- Python `d[k] = v`: update in place if the key exists (keeping its
position), else append. -/
def assocUpd : List (String × String) → String → String → List (String × String)
  | [], k, v => [(k, v)]
  | (k2, v2) :: rest, k, v =>
    if k2 = k then (k, v) :: rest else (k2, v2) :: assocUpd rest k v

/-! ## Decimal rendering (Python `str(int)` and `f-string` `:,` format) -/

/-- `'0'..'9'` for a digit value. -/
def digitCh (n : Nat) : Char := Char.ofNat (48 + n % 10)

/-- Decimal representation of a natural number (Python `str(n)`), with an
explicit fuel that is always sufficient. -/
def natReprAux : Nat → Nat → List Char
  | 0, _ => []
  | fuel + 1, n => if n < 10 then [digitCh n] else natReprAux fuel (n / 10) ++ [digitCh (n % 10)]

def natRepr (n : Nat) : List Char := natReprAux (n + 1) n

/-- Numeric value of a digit string (Python `int(s)` for an all-digit `s`). -/
def digitsToNat (l : List Char) : Nat := l.foldl (fun a c => a * 10 + (c.toNat - 48)) 0

/-- Insert a comma after every third character, working over the reversed
digit list. -/
def goIC : List Char → List Char
  | a :: b :: c :: d :: rest => a :: b :: c :: ',' :: goIC (d :: rest)
  | l => l

/-- Python `f"{n:,}"`: the decimal representation of `n` with a comma
between each group of three digits, counted from the right. -/
def commaFormat (n : Nat) : List Char := (goIC (natRepr n).reverse).reverse

/-! ## `AlaskaScraper.extract_prices` (src/alaska_scraper.py lines 227-259) -/

/-- `[\d,.\s]` (the price capture class). -/
def clsPriceBody : CCls := ⟨true, true, false, [',', '.'], false⟩

/-- `[:\-]`. -/
def colonDash : RAtom := .cls ⟨false, false, false, [':', '-'], false⟩ 1 (some 1) false

def wsStar : RAtom := .cls clsS 0 none false
def wsPlus : RAtom := .cls clsS 1 none false
def wPlus : RAtom := .cls clsW 1 none false

/-- `(REGION\s+\w+)\s*[:\-]\s*([\d,.\s]+)\s*SUFFIX` (price patterns 1-6). -/
def pricePatColon (region suffix : String) : List RAtom :=
  [.gopen, .lit region.data, wsPlus, wPlus, .gclose, wsStar, colonDash, wsStar,
   .gopen, .cls clsPriceBody 1 none false, .gclose, wsStar, .lit suffix.data]

/-- `(REGION\s+\w+)\s+([\d,.\s]+)\s*VNĐ` (price patterns 7-8). -/
def pricePatSpace (region : String) : List RAtom :=
  [.gopen, .lit region.data, wsPlus, wPlus, .gclose, wsPlus,
   .gopen, .cls clsPriceBody 1 none false, .gclose, wsStar, .lit "VNĐ".data]

/-- `(REGION\s+\w+).*?([\d,]+,\d+)\s*VNĐ` (price patterns 9-10). -/
def pricePatTable (region : String) : List RAtom :=
  [.gopen, .lit region.data, wsPlus, wPlus, .gclose, .cls clsDot 0 none true,
   .gopen, .cls ⟨true, false, false, [','], false⟩ 1 none false, .lit [','],
   .cls clsD 1 none false, .gclose, wsStar, .lit "VNĐ".data]

/-- The ten `price_patterns`, in source order. -/
def pricePatterns : List (List RAtom) :=
  [pricePatColon "MIỀN" "VNĐ",   -- r'(MIỀN\s+\w+)\s*[:\-]\s*([\d,.\s]+)\s*VNĐ'
   pricePatColon "Miền" "VNĐ",   -- r'(Miền\s+\w+)\s*[:\-]\s*([\d,.\s]+)\s*VNĐ'
   pricePatColon "MIỀN" "vnđ",   -- r'(MIỀN\s+\w+)\s*[:\-]\s*([\d,.\s]+)\s*vnđ'
   pricePatColon "Miền" "vnđ",   -- r'(Miền\s+\w+)\s*[:\-]\s*([\d,.\s]+)\s*vnđ'
   pricePatColon "MIỀN" "đ",     -- r'(MIỀN\s+\w+)\s*[:\-]\s*([\d,.\s]+)\s*đ'
   pricePatColon "Miền" "đ",     -- r'(Miền\s+\w+)\s*[:\-]\s*([\d,.\s]+)\s*đ'
   pricePatSpace "Miền",         -- r'(Miền\s+\w+)\s+([\d,.\s]+)\s*VNĐ'
   pricePatSpace "MIỀN",         -- r'(MIỀN\s+\w+)\s+([\d,.\s]+)\s*VNĐ'
   pricePatTable "Miền",         -- r'(Miền\s+\w+).*?([\d,]+,\d+)\s*VNĐ'
   pricePatTable "MIỀN"]         -- r'(MIỀN\s+\w+).*?([\d,]+,\d+)\s*VNĐ'

/-- All `(region, price)` pairs produced by running every price pattern
(each with `re.IGNORECASE`) over the flattened text, in source order. -/
def allPriceMatches (text : String) : List (List Char × List Char) :=
  pricePatterns.foldl (fun acc pat => acc ++ findAll2 true pat text.data) []

/-- `re.sub(r'[,.\s]', '', price)`. -/
def cleanPrice (price : List Char) : List Char :=
  price.filter (fun c => !(c == ',' || c == '.' || isSpaceChar c))

/-- `clean_price.isdigit()`. -/
def priceAccept (price : List Char) : Bool :=
  !(cleanPrice price).isEmpty && (cleanPrice price).all isDigitChar

/-- `f"{int(clean_price):,} VNĐ"`. -/
def formatPrice (price : List Char) : String :=
  (commaFormat (digitsToNat (cleanPrice price)) ++ " VNĐ".data).asString

/-- Body of the match loop of `extract_prices`. -/
def processPriceMatch (prices : List (String × String)) (m : List Char × List Char) :
    List (String × String) :=
  if priceAccept m.2 then assocUpd prices (pyStrip m.1).asString (formatPrice m.2)
  else prices

/-- `AlaskaScraper.extract_prices`: the regional price mapping extracted
from the flattened page text (the fold over the concatenated match lists
processes matches in the same order as the source's nested loops). -/
def extract_prices (text : String) : List (String × String) :=
  (allPriceMatches text).foldl processPriceMatch []

/-! ## Contact phone extraction inside
`AlaskaHeaderScraper.extract_page_content`
(src/alaska_header_scraper.py lines 509-524) -/

/-- `r'(?:Tel|Phone|Điện thoại|SĐT)[:\s]*([+\d\s\-\(\)]{10,})'`. -/
def phonePat1 : List RAtom :=
  [.alts ["Tel".data, "Phone".data, "Điện thoại".data, "SĐT".data],
   .cls ⟨false, true, false, [':'], false⟩ 0 none false,
   .gopen, .cls ⟨true, true, false, ['+', '-', '(', ')'], false⟩ 10 none false, .gclose]

/-- `r'(\+84[^\s]{9,})'`. -/
def phonePat2 : List RAtom :=
  [.gopen, .lit "+84".data, .cls clsNotSpace 9 none false, .gclose]

/-- `r'(0[1-9]\d{8,9})'`. -/
def phonePat3 : List RAtom :=
  [.gopen, .lit "0".data,
   .cls ⟨false, false, false, ['1','2','3','4','5','6','7','8','9'], false⟩ 1 (some 1) false,
   .cls clsD 8 (some 9) false, .gclose]

def phonePatterns : List (List RAtom) := [phonePat1, phonePat2, phonePat3]

/-- `re.sub(r'[^\d+]', '', match)`: the residue keeping digits and `+`. -/
def cleanPhone (m : List Char) : List Char :=
  m.filter (fun c => isDigitChar c || c == '+')

/-- `len(clean_phone) >= 10`. -/
def phoneAccept (m : List Char) : Bool := decide ((cleanPhone m).length ≥ 10)

/-- One pattern of the phone loop: keep an already-found phone, else the
first accepted match of this pattern, stored as `match.strip()`. -/
def phoneStep (text : String) (acc : Option String) (pat : List RAtom) :
    Option String :=
  match acc with
  | some p => some p
  | none =>
    ((findAll1 true pat text.data).find? phoneAccept).map
      (fun m => (pyStrip m).asString)

/-- The phone field of `contact_info` as produced by
`extract_page_content`: patterns in order (each with `re.IGNORECASE`),
first accepted match wins. -/
def extractContactPhone (text : String) : Option String :=
  phonePatterns.foldl (phoneStep text) none

/-! ## `AlaskaScraper.extract_features` (src/alaska_scraper.py lines 353-381) -/

/-- A `ul`/`ol` element of the document: its class strings and the
(already whitespace-stripped) texts of its `li` children. -/
structure ListBlock where
  classes : List String
  items : List String

/-- Document projection consumed by `extract_features`: the `ul`/`ol`
elements in document order and the flattened text. -/
structure FeatDoc where
  listBlocks : List ListBlock
  text : String

/-- `re.compile(r'feature|tính-năng|đặc-điểm')` searched against a class
string: alternation of literals, i.e. a substring test. -/
def featureClass (s : String) : Bool :=
  containsSubStr s "feature" || containsSubStr s "tính-năng" || containsSubStr s "đặc-điểm"

/-- `soup.find_all(['ul','ol'], class_=...)`: blocks one of whose class
strings matches the keyword pattern. -/
def featureContainers (doc : FeatDoc) : List ListBlock :=
  doc.listBlocks.filter (fun b => b.classes.any featureClass)

/-- The list-container scan: every `li` text that is non-empty and shorter
than 200 characters. -/
def containerFeatures (doc : FeatDoc) : List String :=
  ((featureContainers doc).map
    (fun b => b.items.filter (fun t => t ≠ "" && t.length < 200))).flatten

/-- `r'[•▪▫▶→✓]\s*([^\n]+)'`. -/
def bulletPat1 : List RAtom :=
  [.cls ⟨false, false, false, ['•','▪','▫','▶','→','✓'], false⟩ 1 (some 1) false,
   wsStar, .gopen, .cls clsNotNL 1 none false, .gclose]

/-- `r'[-–—]\s*([^\n]+)'`. -/
def bulletPat2 : List RAtom :=
  [.cls ⟨false, false, false, ['-','–','—'], false⟩ 1 (some 1) false,
   wsStar, .gopen, .cls clsNotNL 1 none false, .gclose]

/-- The plain-text bullet scan (no IGNORECASE flag): stripped matches with
length strictly between 10 and 200. -/
def bulletFeatures (text : String) : List String :=
  ([bulletPat1, bulletPat2].map
    (fun pat =>
      ((findAll1 false pat text.data).map (fun m => (pyStrip m).asString)).filter
        (fun t => decide (10 < t.length) && decide (t.length < 200)))).flatten

/-- `AlaskaScraper.extract_features`.  `list(set(features))` is modelled
by `List.dedup` (Python set order is unspecified; only membership is
relied upon). -/
def extract_features (doc : FeatDoc) : List String :=
  (containerFeatures doc ++ bulletFeatures doc.text).dedup

/-! ## `AlaskaScraper.extract_specifications`
(src/alaska_scraper.py lines 260-351) -/

/-- `LABEL\s*[:\-]?\s*([^\n]+)` (the labelled specification patterns). -/
def labelPat (label : String) : List RAtom :=
  [.lit label.data, wsStar, .cls ⟨false, false, false, [':', '-'], false⟩ 0 (some 1) false,
   wsStar, .gopen, .cls clsNotNL 1 none false, .gclose]

def clsDPlus : RAtom := .cls clsD 1 none false
def clsDStar : RAtom := .cls clsD 0 none false

/-- `(\d+x\d+x\d+)\s*mm`. -/
def specPatDims : List RAtom :=
  [.gopen, clsDPlus, .lit "x".data, clsDPlus, .lit "x".data, clsDPlus, .gclose,
   wsStar, .lit "mm".data]

/-- `(\d+)\s*kg`. -/
def specPatKg : List RAtom := [.gopen, clsDPlus, .gclose, wsStar, .lit "kg".data]

/-- `(\d+)L`. -/
def specPatL : List RAtom := [.gopen, clsDPlus, .gclose, .lit "L".data]

/-- `(R\d+[A-Z]?)`. -/
def specPatR : List RAtom :=
  [.gopen, .lit "R".data, clsDPlus,
   .cls ⟨false, false, false, "ABCDEFGHIJKLMNOPQRSTUVWXYZ".data, false⟩ 0 (some 1) false,
   .gclose]

/-- `(\d+~\d+ºC)`. -/
def specPatTemp : List RAtom :=
  [.gopen, clsDPlus, .lit "~".data, clsDPlus, .lit "ºC".data, .gclose]

/-- `(\d+W)`. -/
def specPatW : List RAtom := [.gopen, clsDPlus, .lit "W".data, .gclose]

/-- `(\d+~?\d*V/?\d*Hz)`. -/
def specPatV : List RAtom :=
  [.gopen, clsDPlus, .cls ⟨false, false, false, ['~'], false⟩ 0 (some 1) false, clsDStar,
   .lit "V".data, .cls ⟨false, false, false, ['/'], false⟩ 0 (some 1) false, clsDStar,
   .lit "Hz".data, .gclose]

/-- `spec_patterns` in source order, each paired with its fixed key when
the source takes the `i < 12` branch (the key the source computes there as
`pattern.split('\\s*')[0]` with `?`, `(`, `)` removed), and `none` when
the source determines the key from the value's shape (`i >= 12`). -/
def specPatterns : List (List RAtom × Option String) :=
  [(labelPat "Kích thước", some "Kích thước"),
   (labelPat "Trọng lượng", some "Trọng lượng"),
   (labelPat "Dung tích", some "Dung tích"),
   (labelPat "Nhiệt độ", some "Nhiệt độ"),
   (labelPat "Công suất", some "Công suất"),
   (labelPat "Điện áp", some "Điện áp"),
   (labelPat "Gas", some "Gas"),
   (labelPat "Môi chất", some "Môi chất"),
   (labelPat "Tần số", some "Tần số"),
   (labelPat "Chất làm lạnh", some "Chất làm lạnh"),
   (labelPat "Xuất xứ", some "Xuất xứ"),
   (labelPat "Bảo hành", some "Bảo hành"),
   ([.lit "Dimension".data, .cls ⟨false, false, false, ['s'], false⟩ 0 (some 1) false,
     wsStar, .cls ⟨false, false, false, [':', '-'], false⟩ 0 (some 1) false,
     wsStar, .gopen, .cls clsNotNL 1 none false, .gclose], none),  -- r'Dimensions?\s*[:\-]?\s*([^\n]+)'
   (labelPat "Weight", none),
   (labelPat "Capacity", none),
   (labelPat "Temperature", none),
   (labelPat "Power", none),
   (labelPat "Voltage", none),
   (labelPat "Refrigerant", none),
   (specPatDims, none),
   (specPatKg, none),
   (specPatL, none),
   (specPatR, none),
   (specPatTemp, none),
   (specPatW, none),
   (specPatV, none)]

/-- Python `s[:-1].isdigit()`-style all-digit test on a character list. -/
def pyIsDigits (l : List Char) : Bool := !l.isEmpty && l.all isDigitChar

/-- Key determination for the `i >= 12` branch of `extract_specifications`
(the chain of value-shape tests; `None` models `continue`). -/
def specShapeKey (value : List Char) : Option String :=
  if containsSub value "x".data && containsSub value "mm".data then some "Dimensions"
  else if containsSub value "kg".data then some "Weight"
  else if containsSub value "L".data then some "Capacity"
  else if matchPre "R".data value && value.any isDigitChar then some "Refrigerant"
  else if containsSub value "~".data && containsSub value "ºC".data then some "Temperature"
  else if containsSub value "W".data && pyIsDigits value.dropLast then some "Power"
  else if containsSub value "V".data || containsSub value "Hz".data then some "Voltage"
  else none

/-- The value-acceptance guard of the regex section of
`extract_specifications`: non-empty, shorter than 100 characters, and
free of the currency token and regional-price marker (checked on the
uppercased value, as the source does). -/
def specValueOK (value : List Char) : Bool :=
  !value.isEmpty && decide (value.length < 100)
  && !containsSub (pyUpperL value) "VNĐ".data
  && !containsSub (pyUpperL value) "MIỀN".data

/-- Body of the match loop of the regex section of
`extract_specifications`. -/
def specStep (fixedKey : Option String) (specs : List (String × String))
    (m : List Char) : List (String × String) :=
  let value := pyStrip m
  if specValueOK value then
    match fixedKey with
    | some k => assocUpd specs k value.asString
    | none =>
      match specShapeKey value with
      | some k => assocUpd specs k value.asString
      | none => specs
  else specs

/-- The regex section of `extract_specifications` over the flattened
text (each pattern run with `re.IGNORECASE`). -/
def specsFromText (text : String) : List (String × String) :=
  specPatterns.foldl
    (fun specs pk =>
      (findAll1 true pk.1 text.data).foldl (fun s m => specStep pk.2 s m) specs)
    []

/-- The acceptance guard of the table section of
`extract_specifications` on a `(key, value)` cell pair. -/
def tableRowOK (k v : String) : Bool :=
  k ≠ "" && v ≠ "" && decide (v.length < 100)
  && !containsSub (pyUpperL v.data) "VNĐ".data
  && !containsSub (pyUpperL k.data) "MIỀN".data
  && !containsSub (pyUpperL v.data) "MIỀN".data

/-- One table row of the table section: stores `cells[0] → cells[1]` when
the row has at least two cells and the guard passes. -/
def specTableRow (specs : List (String × String)) (row : List String) :
    List (String × String) :=
  match row with
  | k :: v :: _ => if tableRowOK k v then assocUpd specs k v else specs
  | _ => specs

/-- Document projection consumed by `extract_specifications`: the
flattened text and, for each `table` element, its rows as lists of
(stripped) cell texts. -/
structure SpecDoc where
  text : String
  tables : List (List (List String))

/-- `AlaskaScraper.extract_specifications`: regex section, then the table
scan merged into the same mapping. -/
def extract_specifications (doc : SpecDoc) : List (String × String) :=
  doc.tables.foldl (fun specs rows => rows.foldl specTableRow specs)
    (specsFromText doc.text)

/-! ## `AlaskaHeaderScraper.extract_main_menu`
(src/alaska_header_scraper.py lines 133-226)

A document is embedded as the list of `(link text, href)` pairs of its
anchor elements, in document order.  `extract_sub_menus` is not modelled
(none of the claims concern sub-items), so a navigation item carries its
name and url. -/

structure NavItem where
  name : String
  url : String
deriving DecidableEq, Repr

/-- The five target labels, in the dictionary/canonical order used by the
source (`Sản phẩm` is deliberately excluded by the source). -/
def targetLabels : List String :=
  ["Giới thiệu", "Hỗ trợ khách hàng", "Dự án", "Tin tức", "Liên hệ"]

def baseUrl : String := "https://alaska.vn"

/-- URL absolutisation of `extract_main_menu` (`urljoin` against the fixed
base origin). -/
def makeAbsolute (u : String) : String :=
  if u ≠ "" && strStartsWith u "/" then baseUrl ++ u
  else if u ≠ "" && !strStartsWith u "http" then baseUrl ++ "/" ++ u
  else u

/-- The per-label known-URL fragments of the fallback pass. -/
def urlMappings (n : String) : List String :=
  if n = "Giới thiệu" then ["/ve-chung-toi/", "/gioi-thieu/"]
  else if n = "Hỗ trợ khách hàng" then ["#", "/ho-tro/"]
  else if n = "Dự án" then ["/project/", "/du-an/"]
  else if n = "Tin tức" then ["/tin-tuc/", "/news/"]
  else if n = "Liên hệ" then ["/lien-he-alaska/", "/lien-he/", "/contact/"]
  else []

/-- First pass, one link: the first target label that equals or is
contained in the link text and whose slot is still empty is filled (the
source then `break`s out of the label loop). -/
def textMatchFill (txt href : String) :
    List (String × Option NavItem) → List (String × Option NavItem)
  | [] => []
  | (n, o) :: rest =>
    if (n = txt || containsSubStr txt n) && o = none then
      (n, some ⟨n, makeAbsolute href⟩) :: rest
    else (n, o) :: textMatchFill txt href rest

/-- Fallback pass, one label: the first link whose href contains one of
the label's known URL fragments. -/
def urlMatchFind (links : List (String × String)) (parts : List String) :
    Option String :=
  links.findSome?
    (fun l => if parts.any (fun p => containsSubStr l.2 p) then some l.2 else none)

/-- The `target_items` dictionary before any pass: every slot empty. -/
def menuSlots0 : List (String × Option NavItem) :=
  targetLabels.map (fun n => ((n : String), (none : Option NavItem)))

/-- The slots after the text-matching pass over all links. -/
def menuSlots1 (links : List (String × String)) : List (String × Option NavItem) :=
  links.foldl (fun sl l => textMatchFill l.1 l.2 sl) menuSlots0

/-- The fallback pass on one slot: a still-empty slot is filled from the
first link whose href contains a known URL fragment for the label. -/
def menuFallback (links : List (String × String))
    (s : String × Option NavItem) : String × Option NavItem :=
  match s.2 with
  | some it => (s.1, some it)
  | none =>
    match urlMatchFind links (urlMappings s.1) with
    | some u => (s.1, some (⟨s.1, makeAbsolute u⟩ : NavItem))
    | none => (s.1, none)

/-- The slots after the URL-fragment fallback pass. -/
def menuSlots2 (links : List (String × String)) : List (String × Option NavItem) :=
  (menuSlots1 links).map (menuFallback links)

/-- `AlaskaHeaderScraper.extract_main_menu`: text-matching pass over all
links, URL-fragment fallback for still-empty slots, then assembly in the
fixed canonical label order. -/
def extract_main_menu (links : List (String × String)) : List NavItem :=
  targetLabels.filterMap
    (fun n => ((menuSlots2 links).find? (fun s => s.1 = n)).bind (fun s => s.2))

/-! ## `AlaskaScraper.get_all_product_urls`
(src/alaska_scraper.py lines 140-177)

The fetch side is abstracted as a function from the page number to the
product URLs discovered on that listing page (the composition of
`get_page_content` with the per-page URL extraction).  The loop also
records which pages it fetched.  The `fuel` argument is structural
bookkeeping only: starting from 30 it cannot reach 0 before the source's
own `page > 30` check fires. -/

def getAllLoop (fetch : Nat → List String) :
    Nat → Nat → List String → List Nat → List String × List Nat
  | 0, _, acc, fetched => (acc, fetched)
  | fuel + 1, page, acc, fetched =>
    let urls := fetch page
    let fetched2 := fetched ++ [page]
    if urls.isEmpty then (acc, fetched2)
    else
      let acc2 := acc ++ urls
      let page2 := page + 1
      if page2 > 30 then (acc2, fetched2)
      else getAllLoop fetch fuel page2 acc2 fetched2

/-- `AlaskaScraper.get_all_product_urls`: the deduplicated accumulated URL
list (`list(set(all_urls))` modelled by `List.dedup`; Python set order is
unspecified). -/
def get_all_product_urls (fetch : Nat → List String) : List String :=
  (getAllLoop fetch 30 1 [] []).1.dedup

/-- The listing pages fetched by `get_all_product_urls`, in order. -/
def pagesFetched (fetch : Nat → List String) : List Nat :=
  (getAllLoop fetch 30 1 [] []).2

/-! ## `AlaskaScraper.extract_short_description`
(src/alaska_scraper.py lines 404-452)

Document projection: for each of the seven short-description selectors,
the (stripped) text of the selected element when one exists; for each of
the three content selectors, the (stripped) text of the first `p` of the
selected element when both exist; and the flattened text. -/

structure ShortDoc where
  selShort : List (Option String)
  contentFirstP : List (Option String)
  text : String

/-- Selector loop of strategy 1: each present element overwrites the
running value; the loop stops at the first substantial one (non-empty and
longer than 20 characters). -/
def shortLoop1 : List (Option String) → String → String
  | [], sd => sd
  | none :: rest, sd => shortLoop1 rest sd
  | some t :: rest, _ =>
    if t ≠ "" && decide (t.length > 20) then t else shortLoop1 rest t

/-- Strategy 2: first content selector whose first paragraph text is
non-empty with length in `(20, 500)`. -/
def shortLoop2 : List (Option String) → Option String
  | [] => none
  | none :: rest => shortLoop2 rest
  | some t :: rest =>
    if t ≠ "" && decide (t.length > 20) && decide (t.length < 500) then some t
    else shortLoop2 rest

/-- The skip tokens of strategy 3 (copied verbatim from the source,
including the `'KÍCHước'` literal). -/
def shortSkipTokens : List String :=
  ["GIÁ", "MIỀN", "VNĐ", "MSP:", "KÍCHước", "TRỌNG LƯỢNG"]

/-- Strategy 3: the first stripped line of the flattened text that is
non-empty, has length in `(20, 300)`, and whose uppercasing contains no
skip token. -/
def shortLoop3 (text : String) : Option String :=
  ((text.data.splitOn '\n').map (fun l => (pyStrip l).asString)).find?
    (fun l =>
      l ≠ "" && decide (l.length > 20) && decide (l.length < 300)
      && !(shortSkipTokens.any (fun sk => containsSub (pyUpperL l.data) sk.data)))

/-- `AlaskaScraper.extract_short_description`: three fallback strategies,
then the `[:500]` truncation. -/
def extract_short_description (doc : ShortDoc) : String :=
  let sd1 := shortLoop1 doc.selShort ""
  let sd2 := if sd1 = "" then (shortLoop2 doc.contentFirstP).getD sd1 else sd1
  let sd3 := if sd2 = "" then (shortLoop3 doc.text).getD sd2 else sd2
  (sd3.data.take 500).asString

/-! ## Claim-side definitions -/

/-- The digit-only residue of a character list (all non-digit characters
removed). -/
def digitsOnly (l : List Char) : List Char := l.filter isDigitChar

/-- `(,[0-9]{3})*`: zero or more comma-separated three-digit groups. -/
def groupsTail : List Char → Bool
  | [] => true
  | ',' :: a :: b :: c :: rest =>
    isDigitChar a && isDigitChar b && isDigitChar c && groupsTail rest
  | _ => false

/-- `^[0-9]{1,3}(,[0-9]{3})*$`. -/
def groupedDigits (l : List Char) : Bool :=
  decide (1 ≤ (l.takeWhile isDigitChar).length)
  && decide ((l.takeWhile isDigitChar).length ≤ 3)
  && groupsTail (l.drop (l.takeWhile isDigitChar).length)

/-- The stored-price format of claim C1:
`^[0-9]{1,3}(,[0-9]{3})*\sVNĐ$` (digit groups of three separated by
commas, a single whitespace, then the currency suffix). -/
def priceFormatB (v : String) : Bool :=
  decide (4 ≤ v.data.length)
  && (v.data.drop (v.data.length - 4) == " VNĐ".data)
  && groupedDigits (v.data.take (v.data.length - 4))

/-! ## Helper lemmas -/

theorem isSpace_not_digit {c : Char} (h : isSpaceChar c = true) :
    isDigitChar c = false := by
  simp only [isSpaceChar, Bool.or_eq_true, beq_iff_eq] at h
  rcases h with ((((h | h) | h) | h) | h) | h <;> subst h <;> decide

theorem isSpace_not_plus {c : Char} (h : isSpaceChar c = true) :
    (c == '+') = false := by
  simp only [isSpaceChar, Bool.or_eq_true, beq_iff_eq] at h
  rcases h with ((((h | h) | h) | h) | h) | h <;> subst h <;> decide

theorem filter_dropWhile_of_imp {p q : Char → Bool}
    (hpq : ∀ c, q c = true → p c = false) :
    ∀ l : List Char, List.filter p (List.dropWhile q l) = List.filter p l := by
  intro l
  induction l with
  | nil => simp
  | cons c t ih =>
    by_cases hq : q c = true
    · simp [List.dropWhile_cons, hq, List.filter_cons, hpq c hq, ih]
    · simp [List.dropWhile_cons, hq]

theorem filter_pyStrip {p : Char → Bool}
    (hp : ∀ c, isSpaceChar c = true → p c = false) (l : List Char) :
    List.filter p (pyStrip l) = List.filter p l := by
  unfold pyStrip
  rw [List.filter_reverse, filter_dropWhile_of_imp hp, List.filter_reverse,
    filter_dropWhile_of_imp hp, List.reverse_reverse]

theorem mem_assocUpd {l : List (String × String)} {k v : String}
    {e : String × String} (h : e ∈ assocUpd l k v) : e = (k, v) ∨ e ∈ l := by
  induction l with
  | nil => simpa [assocUpd] using h
  | cons p rest ih =>
    obtain ⟨k2, v2⟩ := p
    by_cases hk : k2 = k
    · simp only [assocUpd, if_pos hk, List.mem_cons] at h
      rcases h with h | h
      · exact Or.inl h
      · exact Or.inr (List.mem_cons_of_mem _ h)
    · simp only [assocUpd, if_neg hk, List.mem_cons] at h
      rcases h with h | h
      · exact Or.inr (by simp [h])
      · rcases ih h with h2 | h2
        · exact Or.inl h2
        · exact Or.inr (List.mem_cons_of_mem _ h2)

/-! ## C6: pagination safety ceiling -/

theorem getAllLoop_fetched_le (fetch : Nat → List String) :
    ∀ fuel page acc fetched,
      ((getAllLoop fetch fuel page acc fetched).2).length ≤ fetched.length + fuel
  | 0, _, _, fetched => by simp [getAllLoop]
  | fuel + 1, page, acc, fetched => by
    simp only [getAllLoop]
    split
    · simp
    · split
      · simp
      · have := getAllLoop_fetched_le fetch fuel (page + 1) (acc ++ fetch page)
          (fetched ++ [page])
        simp only [List.length_append, List.length_cons, List.length_nil] at this ⊢
        omega

/-- C6: `get_all_product_urls` terminates for every fetcher behaviour
(it is a total function of the fetcher), and fetches at most 30 listing
pages — the fixed safety ceiling — even for a hostile listing that
returns a URL on every page. -/
theorem get_all_product_urls_page_ceiling (fetch : Nat → List String) :
    (pagesFetched fetch).length ≤ 30 := by
  have := getAllLoop_fetched_le fetch 30 1 [] []
  simpa [pagesFetched] using this

/-! ## C7: empty first listing page -/

/-- C7: if the first listing page yields zero product URLs, the crawl
returns the empty list and only page 1 is ever fetched. -/
theorem get_all_product_urls_empty_first (fetch : Nat → List String)
    (h : fetch 1 = []) :
    get_all_product_urls fetch = [] ∧ pagesFetched fetch = [1] := by
  constructor
  · simp [get_all_product_urls, getAllLoop, h]
  · simp [pagesFetched, getAllLoop, h]

/-- Witness for C7 at the constantly-empty fetcher. -/
theorem get_all_product_urls_empty_first_witness :
    get_all_product_urls (fun _ => []) = [] ∧
      pagesFetched (fun _ => []) = [1] :=
  get_all_product_urls_empty_first (fun _ => []) rfl

/-! ## C9: short description bound -/

theorem asString_take_length_le (l : List Char) (n : Nat) :
    ((l.take n).asString).length ≤ n := by
  have h : ((l.take n).asString).length = (l.take n).length := rfl
  rw [h, List.length_take]
  omega

/-- C9: `extract_short_description` always returns a string (total
function into `String`) of length at most 500, whichever fallback
strategy produced the text. -/
theorem extract_short_description_le_500 (doc : ShortDoc) :
    (extract_short_description doc).length ≤ 500 := by
  unfold extract_short_description
  exact asString_take_length_le _ 500

/-! ## C2: stored phone values -/

theorem cleanPhone_pyStrip (l : List Char) : cleanPhone (pyStrip l) = cleanPhone l := by
  unfold cleanPhone
  apply filter_pyStrip
  intro c hc
  simp [isSpace_not_digit hc, isSpace_not_plus hc]

theorem phoneStep_residue {text : String} {acc : Option String} {pat : List RAtom}
    (hacc : ∀ v, acc = some v → 10 ≤ (cleanPhone v.data).length) :
    ∀ v, phoneStep text acc pat = some v → 10 ≤ (cleanPhone v.data).length := by
  intro v h
  match acc, h with
  | some p, h =>
    exact hacc v (by simpa [phoneStep] using h)
  | none, h =>
    simp only [phoneStep, Option.map_eq_some'] at h
    obtain ⟨m, hm, hv⟩ := h
    have hacc2 : phoneAccept m = true := List.find?_some hm
    have hlen : 10 ≤ (cleanPhone m).length := by
      simpa [phoneAccept] using hacc2
    have hdata : v.data = pyStrip m := by rw [← hv]; rfl
    rw [hdata, cleanPhone_pyStrip]
    exact hlen

theorem phoneFold_residue (text : String) :
    ∀ (pats : List (List RAtom)) (acc : Option String),
      (∀ v, acc = some v → 10 ≤ (cleanPhone v.data).length) →
      ∀ v, pats.foldl (phoneStep text) acc = some v →
        10 ≤ (cleanPhone v.data).length := by
  intro pats
  induction pats with
  | nil => intro acc hacc v h; exact hacc v h
  | cons p ps ih =>
    intro acc hacc v h
    exact ih (phoneStep text acc p) (fun w hw => phoneStep_residue hacc w hw) v h

/-- C2 (amended): every phone value stored by `extract_page_content` has a
residue of length at least 10 after removing every character that is
neither a digit nor `+` — the source counts `+` characters toward the
10-character threshold, so the digit-only residue itself may be shorter
than 10. -/
theorem extractContactPhone_residue (text v : String)
    (h : extractContactPhone text = some v) :
    10 ≤ (cleanPhone v.data).length := by
  unfold extractContactPhone at h
  exact phoneFold_residue text phonePatterns none (by intro w hw; cases hw) v h

/-- C2 counterexample: on `"Tel: +123 456 789"` the stored phone is
`"+123 456 789"`, whose digit-only residue has length 9 < 10, refuting
the claim that every stored phone has a digit-only residue of length at
least 10. -/
theorem extractContactPhone_digit_counterexample :
    extractContactPhone "Tel: +123 456 789" = some "+123 456 789" ∧
      (digitsOnly "+123 456 789".data).length = 9 := by
  constructor
  · rfl
  · rfl

/-- Witness for C2 (amended) at a concrete page text. -/
theorem extractContactPhone_residue_witness :
    extractContactPhone "Tel: 0123456789" = some "0123456789" ∧
      10 ≤ (cleanPhone "0123456789".data).length :=
  ⟨rfl, extractContactPhone_residue "Tel: 0123456789" "0123456789" rfl⟩

/-! ## C3: feature length bounds -/

theorem bulletFeatures_bounds (text : String) :
    ∀ f ∈ bulletFeatures text, 10 < f.length ∧ f.length < 200 := by
  intro f hf
  unfold bulletFeatures at hf
  simp only [List.mem_flatten, List.mem_map] at hf
  obtain ⟨l, ⟨pat, hpat, rfl⟩, hfl⟩ := hf
  have h := List.of_mem_filter hfl
  simpa using h

/-- C3 (amended): every entry of the feature list is non-empty and
strictly shorter than 200 characters, and every entry contributed by the
plain-text bullet scan is additionally strictly longer than 10
characters; the strict `> 10` lower bound does not apply to entries from
the list-container scan (the source only requires those to be
non-empty). -/
theorem extract_features_bounds (doc : FeatDoc) :
    (∀ f ∈ extract_features doc, f ≠ "" ∧ f.length < 200) ∧
    (∀ f ∈ bulletFeatures doc.text, 10 < f.length ∧ f.length < 200) := by
  constructor
  · intro f hf
    unfold extract_features at hf
    rw [List.mem_dedup] at hf
    rcases List.mem_append.mp hf with h | h
    · unfold containerFeatures at h
      simp only [List.mem_flatten, List.mem_map] at h
      obtain ⟨l, ⟨b, hb, rfl⟩, hfl⟩ := h
      have h2 := List.of_mem_filter hfl
      simpa using h2
    · have h2 := bulletFeatures_bounds doc.text f h
      refine ⟨?_, h2.2⟩
      intro hempty
      subst hempty
      simp at h2
  · exact bulletFeatures_bounds doc.text

/-- C3 counterexample: a `ul` with class `feature` containing the item
`"abc"` (3 characters) puts `"abc"` into the feature list even though it
is not longer than 10 characters, refuting the claim that every stored
entry lies strictly inside the `(10, 200)` window. -/
theorem extract_features_short_counterexample :
    "abc" ∈ extract_features ⟨[⟨["feature"], ["abc"]⟩], ""⟩ ∧
      ("abc" : String).length ≤ 10 := by
  constructor
  · decide
  · decide

/-- Witness for C3 (amended) at a concrete document. -/
theorem extract_features_bounds_witness :
    (("Tiết kiệm điện năng tối đa" : String) ≠ "" ∧
      ("Tiết kiệm điện năng tối đa" : String).length < 200) ∧
    (10 < ("Tiết kiệm điện năng tối đa" : String).length ∧
      ("Tiết kiệm điện năng tối đa" : String).length < 200) :=
  ⟨(extract_features_bounds ⟨[], "• Tiết kiệm điện năng tối đa"⟩).1
      "Tiết kiệm điện năng tối đa" (by decide),
   (extract_features_bounds ⟨[], "• Tiết kiệm điện năng tối đa"⟩).2
      "Tiết kiệm điện năng tối đa" (by decide)⟩

/-! ## C4: specification values are free of price tokens -/

/-- The cross-contamination guard of claim C4 on a stored value. -/
def noPriceTokens (v : String) : Prop :=
  containsSub (pyUpperL v.data) "VNĐ".data = false ∧
  containsSub (pyUpperL v.data) "MIỀN".data = false

theorem foldl_preserve {α β : Type} {P : β → Prop} {f : β → α → β}
    (hf : ∀ s x, P s → P (f s x)) :
    ∀ (L : List α) (init : β), P init → P (L.foldl f init) := by
  intro L
  induction L with
  | nil => intro init h; exact h
  | cons x xs ih => intro init h; exact ih _ (hf _ _ h)

theorem specValueOK_clean {value : List Char} (h : specValueOK value = true) :
    noPriceTokens value.asString := by
  unfold specValueOK at h
  simp only [Bool.and_eq_true, Bool.not_eq_true'] at h
  exact ⟨h.1.2, h.2⟩

theorem mem_assocUpd_clean {specs : List (String × String)} {k v : String}
    {kv : String × String} (hs : ∀ e ∈ specs, noPriceTokens e.2)
    (hv : noPriceTokens v) (h : kv ∈ assocUpd specs k v) : noPriceTokens kv.2 := by
  rcases mem_assocUpd h with h2 | h2
  · rw [h2]; exact hv
  · exact hs kv h2

theorem specStep_clean (fk : Option String) (m : List Char)
    (specs : List (String × String)) (hs : ∀ e ∈ specs, noPriceTokens e.2) :
    ∀ e ∈ specStep fk specs m, noPriceTokens e.2 := by
  intro e he
  unfold specStep at he
  by_cases hok : specValueOK (pyStrip m) = true
  · rw [if_pos hok] at he
    have hclean : noPriceTokens (pyStrip m).asString := specValueOK_clean hok
    match fk, he with
    | some k, he => exact mem_assocUpd_clean hs hclean he
    | none, he =>
      rcases hsk : specShapeKey (pyStrip m) with _ | k
      · rw [hsk] at he; exact hs e he
      · rw [hsk] at he; exact mem_assocUpd_clean hs hclean he
  · rw [if_neg hok] at he
    exact hs e he

theorem specsFromText_clean (text : String) :
    ∀ e ∈ specsFromText text, noPriceTokens e.2 := by
  unfold specsFromText
  refine @foldl_preserve _ _ (fun specs : List (String × String) => ∀ e ∈ specs, noPriceTokens e.2) _
    ?_ specPatterns [] (by intro e he; cases he)
  intro specs pk hs
  exact @foldl_preserve _ _ (fun specs : List (String × String) => ∀ e ∈ specs, noPriceTokens e.2) _
    (fun s m hm => specStep_clean pk.2 m s hm) _ specs hs

theorem specTableRow_clean (row : List String)
    (specs : List (String × String)) (hs : ∀ e ∈ specs, noPriceTokens e.2) :
    ∀ e ∈ specTableRow specs row, noPriceTokens e.2 := by
  intro e he
  rcases row with _ | ⟨k, _ | ⟨v, rest⟩⟩
  · exact hs e he
  · exact hs e he
  · have he2 : e ∈ (if tableRowOK k v then assocUpd specs k v else specs) := he
    by_cases hok : tableRowOK k v = true
    · rw [if_pos hok] at he2
      have hclean : noPriceTokens v := by
        unfold tableRowOK at hok
        simp only [Bool.and_eq_true, Bool.not_eq_true'] at hok
        exact ⟨hok.1.1.2, hok.2⟩
      exact mem_assocUpd_clean hs hclean he2
    · rw [if_neg hok] at he2
      exact hs e he2

/-- C4: no value stored in the mapping returned by
`extract_specifications` contains the currency token `VNĐ` or the
regional-price marker `MIỀN` (compared on the uppercased value, as the
source does); this holds for the labelled patterns, the shape-sniffing
patterns, and the table-row scan alike. -/
theorem extract_specifications_no_price_tokens (doc : SpecDoc) (k v : String)
    (h : (k, v) ∈ extract_specifications doc) :
    containsSub (pyUpperL v.data) "VNĐ".data = false ∧
    containsSub (pyUpperL v.data) "MIỀN".data = false := by
  have hall : ∀ e ∈ extract_specifications doc, noPriceTokens e.2 := by
    unfold extract_specifications
    refine @foldl_preserve _ _ (fun specs : List (String × String) => ∀ e ∈ specs, noPriceTokens e.2) _
      ?_ doc.tables _ (specsFromText_clean doc.text)
    intro specs rows hs
    exact @foldl_preserve _ _ (fun specs : List (String × String) => ∀ e ∈ specs, noPriceTokens e.2) _
      (fun s row hr => specTableRow_clean row s hr) rows specs hs
  exact hall (k, v) h

/-- Witness for C4 at a concrete document. -/
theorem extract_specifications_no_price_tokens_witness :
    containsSub (pyUpperL ("R600A" : String).data) "VNĐ".data = false ∧
    containsSub (pyUpperL ("R600A" : String).data) "MIỀN".data = false :=
  extract_specifications_no_price_tokens ⟨"Gas: R600A", []⟩ "Gas" "R600A" (by decide)

/-! ## C5 and C10: navigation menu shape -/

/-- Slot soundness: a filled slot holds an item named after its label. -/
def SlotsInv (sl : List (String × Option NavItem)) : Prop :=
  ∀ p ∈ sl, ∀ it : NavItem, p.2 = some it → it.name = p.1

theorem slotsInv_menuSlots0 : SlotsInv menuSlots0 := by
  intro p hp it hit
  unfold menuSlots0 at hp
  simp only [List.mem_map] at hp
  obtain ⟨n, _, rfl⟩ := hp
  cases hit

theorem slotsInv_textMatchFill {txt href : String} :
    ∀ sl, SlotsInv sl → SlotsInv (textMatchFill txt href sl) := by
  intro sl
  induction sl with
  | nil => intro h; exact h
  | cons p rest ih =>
    intro h
    obtain ⟨n, o⟩ := p
    unfold textMatchFill
    by_cases hc : ((n = txt || containsSubStr txt n) && o = none) = true
    · rw [if_pos hc]
      intro q hq it hit
      rcases List.mem_cons.mp hq with rfl | hq2
      · injection hit with h2
        rw [← h2]
      · exact h q (List.mem_cons_of_mem _ hq2) it hit
    · rw [if_neg hc]
      intro q hq it hit
      rcases List.mem_cons.mp hq with rfl | hq2
      · exact h (n, o) (List.mem_cons_self _ _) it hit
      · exact ih (fun r hr => h r (List.mem_cons_of_mem _ hr)) q hq2 it hit

theorem slotsInv_menuSlots1 (links : List (String × String)) :
    SlotsInv (menuSlots1 links) := by
  unfold menuSlots1
  exact @foldl_preserve _ _ SlotsInv _
    (fun sl l hl => slotsInv_textMatchFill sl hl) links menuSlots0 slotsInv_menuSlots0

theorem slotsInv_menuSlots2 (links : List (String × String)) :
    SlotsInv (menuSlots2 links) := by
  unfold menuSlots2
  intro p hp it hit
  simp only [List.mem_map] at hp
  obtain ⟨s, hs, rfl⟩ := hp
  rcases h2 : s.2 with _ | jt
  · rcases hu : urlMatchFind links (urlMappings s.1) with _ | u
    · simp only [menuFallback, h2, hu] at hit
      cases hit
    · simp only [menuFallback, h2, hu] at hit ⊢
      injection hit with h3
      rw [← h3]
  · simp only [menuFallback, h2] at hit ⊢
    injection hit with h3
    rw [← h3]
    exact slotsInv_menuSlots1 links s hs jt h2

theorem filterMapName_sublist (f : String → Option NavItem)
    (hf : ∀ n it, f n = some it → it.name = n) :
    ∀ L : List String, ((L.filterMap f).map NavItem.name).Sublist L := by
  intro L
  induction L with
  | nil => simp
  | cons a L ih =>
    rcases h : f a with _ | it
    · simp only [List.filterMap_cons, h]
      exact ih.cons a
    · simp only [List.filterMap_cons, h, List.map_cons]
      rw [hf a it h]
      exact ih.cons₂ a

theorem menuLookup_name (links : List (String × String)) :
    ∀ n it, ((menuSlots2 links).find? (fun s => s.1 = n)).bind (fun s => s.2) = some it →
      it.name = n := by
  intro n it h
  rw [Option.bind_eq_some] at h
  obtain ⟨s, hfind, hs2⟩ := h
  have h1 := List.find?_some hfind
  simp only [decide_eq_true_eq] at h1
  have h2 : s ∈ menuSlots2 links := List.mem_of_find?_eq_some hfind
  have h3 := slotsInv_menuSlots2 links s h2 it hs2
  rw [h3]
  exact h1

/-- C5: the navigation items returned by `extract_main_menu` appear in
the fixed canonical label order (restricted to the labels actually
found), independent of the order in which the links occur in the
document: the name sequence is always a sublist of the canonical label
list. -/
theorem extract_main_menu_canonical_order (links : List (String × String)) :
    ((extract_main_menu links).map NavItem.name).Sublist targetLabels := by
  unfold extract_main_menu
  exact filterMapName_sublist _ (menuLookup_name links) targetLabels

/-- C10: `extract_main_menu` returns at most 5 items, every item's name
is drawn from the fixed allow-list of 5 target labels, and no label
occurs more than once. -/
theorem extract_main_menu_allowlist (links : List (String × String)) :
    (extract_main_menu links).length ≤ 5 ∧
    ((extract_main_menu links).map NavItem.name).Nodup ∧
    ∀ it ∈ extract_main_menu links, it.name ∈ targetLabels := by
  have hsub : ((extract_main_menu links).map NavItem.name).Sublist targetLabels := by
    unfold extract_main_menu
    exact filterMapName_sublist _ (menuLookup_name links) targetLabels
  refine ⟨?_, ?_, ?_⟩
  · have hlen := hsub.length_le
    simpa [targetLabels] using hlen
  · exact hsub.nodup (by decide)
  · intro it hit
    exact hsub.subset (List.mem_map_of_mem NavItem.name hit)

/-- Witness for C10 at a concrete link list. -/
theorem extract_main_menu_allowlist_witness :
    (extract_main_menu [("Giới thiệu", "/gioi-thieu/")]).length ≤ 5 ∧
      NavItem.name ⟨"Giới thiệu", "https://alaska.vn/gioi-thieu/"⟩ ∈ targetLabels :=
  ⟨(extract_main_menu_allowlist [("Giới thiệu", "/gioi-thieu/")]).1,
   (extract_main_menu_allowlist [("Giới thiệu", "/gioi-thieu/")]).2.2
     ⟨"Giới thiệu", "https://alaska.vn/gioi-thieu/"⟩ (by decide)⟩

/-! ## C1 and C8: the price pipeline

The key facts: the reformatting `f"{int(clean):,} VNĐ"` always produces
the comma-grouped format, and its digit content is the canonical decimal
representation of the number denoted by the digits of the raw match —
equal to those digits exactly when they carry no leading zero. -/

theorem isDigitChar_digitCh (n : Nat) : isDigitChar (digitCh n) = true := by
  unfold digitCh
  have h10 : n % 10 = 0 ∨ n % 10 = 1 ∨ n % 10 = 2 ∨ n % 10 = 3 ∨ n % 10 = 4 ∨
      n % 10 = 5 ∨ n % 10 = 6 ∨ n % 10 = 7 ∨ n % 10 = 8 ∨ n % 10 = 9 := by omega
  rcases h10 with h | h | h | h | h | h | h | h | h | h <;> rw [h] <;> decide

theorem natReprAux_all_digits :
    ∀ fuel n, (natReprAux fuel n).all isDigitChar = true
  | 0, _ => rfl
  | fuel + 1, n => by
    unfold natReprAux
    by_cases h : n < 10
    · rw [if_pos h]
      simp [isDigitChar_digitCh]
    · rw [if_neg h, List.all_append]
      simp [natReprAux_all_digits fuel (n / 10), isDigitChar_digitCh]

theorem natReprAux_ne_nil : ∀ fuel n, fuel ≠ 0 → natReprAux fuel n ≠ []
  | 0, _, h => absurd rfl h
  | fuel + 1, n, _ => by
    unfold natReprAux
    by_cases h : n < 10
    · rw [if_pos h]; simp
    · rw [if_neg h]; simp

theorem natRepr_all_digits (n : Nat) : (natRepr n).all isDigitChar = true :=
  natReprAux_all_digits (n + 1) n

theorem natRepr_ne_nil (n : Nat) : natRepr n ≠ [] :=
  natReprAux_ne_nil (n + 1) n (by omega)

theorem filter_digit_goIC :
    ∀ l, List.filter isDigitChar (goIC l) = List.filter isDigitChar l
  | [] => rfl
  | [a] => rfl
  | [a, b] => rfl
  | [a, b, c] => rfl
  | a :: b :: c :: d :: rest => by
    have ih := filter_digit_goIC (d :: rest)
    have hc : isDigitChar ',' = false := rfl
    have hcomma : List.filter isDigitChar (',' :: goIC (d :: rest)) =
        List.filter isDigitChar (goIC (d :: rest)) := by
      simp [List.filter_cons, hc]
    show List.filter isDigitChar ([a, b, c] ++ ',' :: goIC (d :: rest)) =
      List.filter isDigitChar ([a, b, c] ++ d :: rest)
    rw [List.filter_append, List.filter_append, hcomma, ih]

theorem groupsTail_append {x y z : Char}
    (hx : isDigitChar x = true) (hy : isDigitChar y = true)
    (hz : isDigitChar z = true) :
    ∀ t, groupsTail t = true → groupsTail (t ++ [',', x, y, z]) = true := by
  have H : ∀ k t, t.length ≤ k → groupsTail t = true →
      groupsTail (t ++ [',', x, y, z]) = true := by
    intro k
    induction k with
    | zero =>
      intro t ht h
      have ht0 : t = [] := List.eq_nil_of_length_eq_zero (by omega)
      subst ht0
      simp only [List.nil_append]
      show (isDigitChar x && isDigitChar y && isDigitChar z && groupsTail []) = true
      simp [hx, hy, hz, groupsTail]
    | succ k ih =>
      intro t ht h
      rw [groupsTail.eq_def] at h
      split at h
      · simp only [List.nil_append]
        show (isDigitChar x && isDigitChar y && isDigitChar z && groupsTail []) = true
        simp [hx, hy, hz, groupsTail]
      · rename_i a b c rest
        simp only [Bool.and_eq_true] at h
        obtain ⟨⟨⟨ha, hb⟩, hc2⟩, hrest⟩ := h
        have hr := ih rest (by simp only [List.length_cons] at ht; omega) hrest
        show groupsTail (',' :: a :: b :: c :: (rest ++ [',', x, y, z])) = true
        show (isDigitChar a && isDigitChar b && isDigitChar c &&
          groupsTail (rest ++ [',', x, y, z])) = true
        simp [ha, hb, hc2, hr]
      · simp at h
  exact fun t => H t.length t le_rfl

theorem groupsTail_cons_comma {e : Char} {t2 : List Char}
    (h : groupsTail (e :: t2) = true) : e = ',' := by
  by_contra hne
  rw [groupsTail.eq_def] at h
  split at h
  · rename_i heq; cases heq
  · rename_i heq
    injection heq with h1 _
    exact hne h1
  · simp at h

theorem takeWhile_all_stop {p : Char → Bool} {q : Char} {zs : List Char}
    (hq : p q = false) :
    ∀ g : List Char, g.all p = true → (g ++ q :: zs).takeWhile p = g := by
  intro g
  induction g with
  | nil => intro _; simp [List.takeWhile_cons, hq]
  | cons a g ih =>
    intro hg
    simp only [List.all_cons, Bool.and_eq_true] at hg
    simp [List.takeWhile_cons, hg.1, ih hg.2]

theorem takeWhile_of_all {p : Char → Bool} :
    ∀ g : List Char, g.all p = true → g.takeWhile p = g := by
  intro g
  induction g with
  | nil => intro _; rfl
  | cons a g ih =>
    intro hg
    simp only [List.all_cons, Bool.and_eq_true] at hg
    simp [List.takeWhile_cons, hg.1, ih hg.2]

theorem takeWhile_append_drop_self (p : Char → Bool) :
    ∀ l : List Char, l.takeWhile p ++ l.drop (l.takeWhile p).length = l := by
  intro l
  induction l with
  | nil => rfl
  | cons a l ih =>
    by_cases h : p a = true
    · simp only [List.takeWhile_cons, h, if_true, List.length_cons,
        List.drop_succ_cons, List.cons_append, List.cons.injEq, true_and]
      exact ih
    · simp [List.takeWhile_cons, h]

/-- A string accepted by `groupedDigits` splits as a first digit group of
length 1-3 followed by the comma-separated three-digit groups. -/
theorem groupedDigits_decomp {X : List Char} (hX : groupedDigits X = true) :
    ∃ g t, X = g ++ t ∧ g.all isDigitChar = true ∧ 1 ≤ g.length ∧ g.length ≤ 3 ∧
      groupsTail t = true ∧ (t = [] ∨ ∃ t2 : List Char, t = ',' :: t2) := by
  unfold groupedDigits at hX
  simp only [Bool.and_eq_true, decide_eq_true_eq] at hX
  obtain ⟨⟨h1, h2⟩, h3⟩ := hX
  refine ⟨X.takeWhile isDigitChar, X.drop (X.takeWhile isDigitChar).length,
    (takeWhile_append_drop_self _ X).symm, ?_, h1, h2, h3, ?_⟩
  · rw [List.all_eq_true]
    intro c hc
    exact List.mem_takeWhile_imp hc
  · rcases hd : X.drop (X.takeWhile isDigitChar).length with _ | ⟨e, t2⟩
    · exact Or.inl rfl
    · rw [hd] at h3
      exact Or.inr ⟨t2, by rw [groupsTail_cons_comma h3]⟩

theorem groupedDigits_parts {g t : List Char} (hg : g.all isDigitChar = true)
    (h1 : 1 ≤ g.length) (h2 : g.length ≤ 3) (h3 : groupsTail t = true)
    (hshape : t = [] ∨ ∃ t2 : List Char, t = ',' :: t2) :
    groupedDigits (g ++ t) = true := by
  have htw : (g ++ t).takeWhile isDigitChar = g := by
    rcases hshape with rfl | ⟨t2, rfl⟩
    · rw [List.append_nil]; exact takeWhile_of_all g hg
    · exact takeWhile_all_stop (by decide) g hg
  unfold groupedDigits
  rw [htw, List.drop_left]
  simp only [Bool.and_eq_true, decide_eq_true_eq]
  exact ⟨⟨h1, h2⟩, h3⟩

theorem groupedDigits_append3 {X : List Char} {x y z : Char}
    (hX : groupedDigits X = true) (hx : isDigitChar x = true)
    (hy : isDigitChar y = true) (hz : isDigitChar z = true) :
    groupedDigits (X ++ [',', x, y, z]) = true := by
  obtain ⟨g, t, rfl, hg, h1, h2, h3, hshape⟩ := groupedDigits_decomp hX
  rw [List.append_assoc]
  refine groupedDigits_parts hg h1 h2 ?_ ?_
  · rcases hshape with rfl | ⟨t2, rfl⟩
    · simp only [List.nil_append]
      show (isDigitChar x && isDigitChar y && isDigitChar z && groupsTail []) = true
      simp [hx, hy, hz, groupsTail]
    · exact groupsTail_append hx hy hz _ h3
  · rcases hshape with rfl | ⟨t2, rfl⟩
    · exact Or.inr ⟨[x, y, z], by simp⟩
    · exact Or.inr ⟨t2 ++ [',', x, y, z], by simp⟩

theorem grouped_goIC_rev :
    ∀ l, l ≠ [] → l.all isDigitChar = true → groupedDigits ((goIC l).reverse) = true
  | [], h, _ => absurd rfl h
  | [a], _, hall => by
    simp only [List.all_cons, List.all_nil, Bool.and_true] at hall
    simp [goIC, groupedDigits, List.takeWhile_cons, hall, groupsTail]
  | [a, b], _, hall => by
    simp only [List.all_cons, List.all_nil, Bool.and_true, Bool.and_eq_true] at hall
    simp [goIC, groupedDigits, List.takeWhile_cons, hall.1, hall.2, groupsTail]
  | [a, b, c], _, hall => by
    simp only [List.all_cons, List.all_nil, Bool.and_true, Bool.and_eq_true] at hall
    simp [goIC, groupedDigits, List.takeWhile_cons, hall.1, hall.2.1, hall.2.2, groupsTail]
  | a :: b :: c :: d :: rest, _, hall => by
    simp only [List.all_cons, Bool.and_eq_true] at hall
    have ih := grouped_goIC_rev (d :: rest) (by simp)
      (by simp [List.all_cons, hall.2.2.2.1, hall.2.2.2.2])
    have hsh : (goIC (a :: b :: c :: d :: rest)).reverse =
        (goIC (d :: rest)).reverse ++ [',', c, b, a] := by
      show (a :: b :: c :: ',' :: goIC (d :: rest)).reverse = _
      simp
    rw [hsh]
    exact groupedDigits_append3 ih hall.2.2.1 hall.2.1 hall.1

theorem grouped_commaFormat (n : Nat) : groupedDigits (commaFormat n) = true := by
  unfold commaFormat
  apply grouped_goIC_rev
  · simp [natRepr_ne_nil n]
  · rw [List.all_eq_true]
    intro c hc
    rw [List.mem_reverse] at hc
    exact (List.all_eq_true.mp (natRepr_all_digits n)) c hc

theorem filter_digit_commaFormat (n : Nat) :
    List.filter isDigitChar (commaFormat n) = natRepr n := by
  unfold commaFormat
  rw [List.filter_reverse, filter_digit_goIC, List.filter_reverse,
    List.reverse_reverse]
  exact List.filter_eq_self.mpr (List.all_eq_true.mp (natRepr_all_digits n))

theorem priceFormatB_formatPrice (p : List Char) :
    priceFormatB (formatPrice p) = true := by
  unfold priceFormatB formatPrice
  have hdata : ∀ l : List Char, (l.asString).data = l := fun _ => rfl
  rw [hdata]
  have hlen : (commaFormat (digitsToNat (cleanPrice p)) ++ " VNĐ".data).length =
      (commaFormat (digitsToNat (cleanPrice p))).length + 4 := by
    rw [List.length_append]; rfl
  rw [hlen]
  have h4 : (commaFormat (digitsToNat (cleanPrice p))).length + 4 - 4 =
      (commaFormat (digitsToNat (cleanPrice p))).length := by omega
  rw [h4, List.drop_left, List.take_left]
  simp only [Bool.and_eq_true, decide_eq_true_eq]
  exact ⟨⟨by omega, by simp⟩, grouped_commaFormat _⟩

theorem digitsOnly_formatPrice (p : List Char) :
    digitsOnly (formatPrice p).data = natRepr (digitsToNat (cleanPrice p)) := by
  unfold formatPrice digitsOnly
  show List.filter isDigitChar (commaFormat (digitsToNat (cleanPrice p)) ++ " VNĐ".data) = _
  rw [List.filter_append]
  have h2 : List.filter isDigitChar " VNĐ".data = [] := rfl
  rw [h2, List.append_nil]
  exact filter_digit_commaFormat _

theorem cleanPrice_eq_digitsOnly {p : List Char} (h : priceAccept p = true) :
    cleanPrice p = digitsOnly p := by
  unfold priceAccept at h
  simp only [Bool.and_eq_true] at h
  unfold cleanPrice digitsOnly
  apply List.filter_congr
  intro c hc
  by_cases hq : (!(c == ',' || c == '.' || isSpaceChar c)) = true
  · have hmem : c ∈ cleanPrice p := by
      unfold cleanPrice
      exact List.mem_filter.mpr ⟨hc, hq⟩
    have hd := (List.all_eq_true.mp h.2) c hmem
    rw [hq, hd]
  · have hX : (c == ',' || c == '.' || isSpaceChar c) = true := by
      revert hq
      cases (c == ',' || c == '.' || isSpaceChar c) <;> simp
    have hX2 : (c = ',' ∨ c = '.') ∨ isSpaceChar c = true := by
      simpa using hX
    have hnd : isDigitChar c = false := by
      rcases hX2 with (h2 | h2) | h2
      · subst h2; rfl
      · subst h2; rfl
      · exact isSpace_not_digit h2
    rw [hX, hnd]
    rfl

theorem mem_priceFold :
    ∀ (L : List (List Char × List Char)) (init : List (String × String))
      (e : String × String),
      e ∈ L.foldl processPriceMatch init →
      e ∈ init ∨ ∃ m ∈ L, priceAccept m.2 = true ∧
        e = ((pyStrip m.1).asString, formatPrice m.2) := by
  intro L
  induction L with
  | nil => intro init e h; exact Or.inl h
  | cons m L ih =>
    intro init e h
    rcases ih (processPriceMatch init m) e h with h2 | ⟨m2, hm2, hacc, he⟩
    · unfold processPriceMatch at h2
      by_cases hacc : priceAccept m.2 = true
      · rw [if_pos hacc] at h2
        rcases mem_assocUpd h2 with h3 | h3
        · exact Or.inr ⟨m, List.mem_cons_self _ _, hacc, h3⟩
        · exact Or.inl h3
      · rw [if_neg hacc] at h2
        exact Or.inl h2
    · exact Or.inr ⟨m2, List.mem_cons_of_mem _ hm2, hacc, he⟩

/-- C1 (amended): every price entry stored by `extract_prices` has a
value matching `^[0-9]{1,3}(,[0-9]{3})*\sVNĐ$`, its key is the stripped
regional label of a raw pattern match, and the digit-only form of the
stored value is the canonical decimal representation of the number
denoted by the digit-only form of that raw matched price text — i.e. the
digits agree after removing leading zeros.  (The `f"{int(clean):,}"`
reformatting erases leading zeros, so exact digit-string preservation
fails; see the counterexample.) -/
theorem extract_prices_format_and_digits (text : String) (r v : String)
    (h : (r, v) ∈ extract_prices text) :
    priceFormatB v = true ∧
    ∃ m ∈ allPriceMatches text, r = (pyStrip m.1).asString ∧
      digitsOnly v.data = natRepr (digitsToNat (digitsOnly m.2)) := by
  unfold extract_prices at h
  rcases mem_priceFold (allPriceMatches text) [] (r, v) h with h2 | ⟨m, hm, hacc, he⟩
  · cases h2
  · rw [Prod.mk.injEq] at he
    obtain ⟨hr, hv⟩ := he
    subst hr
    subst hv
    refine ⟨priceFormatB_formatPrice m.2, m, hm, rfl, ?_⟩
    rw [digitsOnly_formatPrice, cleanPrice_eq_digitsOnly hacc]

/-- C1 counterexample: on the page text `"MIỀN BẮC: 0123 VNĐ"` the stored
value is `"123 VNĐ"`, while every raw price text matched by the price
patterns on this input has digit-only form `"0123"` — the clean-and-
reformat step dropped the leading zero, so the stored digits do not equal
the matched digits. -/
theorem extract_prices_leading_zero_counterexample :
    ("MIỀN BẮC", "123 VNĐ") ∈ extract_prices "MIỀN BẮC: 0123 VNĐ" ∧
    (allPriceMatches "MIỀN BẮC: 0123 VNĐ").all
      (fun m => digitsOnly m.2 == "0123".data) = true ∧
    digitsOnly ("123 VNĐ" : String).data ≠ "0123".data := by
  refine ⟨by decide, by decide, by decide⟩

/-- Witness for C1 (amended) at a concrete page text. -/
theorem extract_prices_format_and_digits_witness :
    priceFormatB "12,345,000 VNĐ" = true ∧
    ∃ m ∈ allPriceMatches "MIỀN BẮC: 12,345,000 VNĐ",
      "MIỀN BẮC" = (pyStrip m.1).asString ∧
      digitsOnly ("12,345,000 VNĐ" : String).data =
        natRepr (digitsToNat (digitsOnly m.2)) :=
  extract_prices_format_and_digits "MIỀN BẮC: 12,345,000 VNĐ"
    "MIỀN BẮC" "12,345,000 VNĐ" (by decide)

/-- C8: on a document whose flattened text is exactly
`MIỀN BẮC: 12,345,000 VNĐ`, `extract_prices` returns exactly the mapping
`{"MIỀN BẮC": "12,345,000 VNĐ"}` and nothing else. -/
theorem extract_prices_example :
    extract_prices "MIỀN BẮC: 12,345,000 VNĐ" =
      [("MIỀN BẮC", "12,345,000 VNĐ")] := by
  decide

end Alaska

